import Mathlib

/-!
Verification of the localscope repository: a scoped context manager
(class ScopeContextManager in src/__init__.py) that snapshots the caller's
local-variable mapping on entry and selectively restores it on exit.

Shallow embedding choices:
- the caller's locals dictionary is a finite-support map modelled as a
  function from variable names (strings) to optional values;
- Python kwargs is a list of name/value pairs (Python guarantees the names
  are distinct, stated where needed as a Nodup hypothesis);
- the one optional positional argument can be a Python list of names or any
  non-list object, modelled by the inductive PosArg;
- operations that can raise (dictionary del on a missing key, and hence
  the whole exit routine) return Option, with none modelling the raise.
-/

namespace Localscope

abbrev VarName := String

/-- The caller frame's local-variable mapping: name to optional value. -/
abbrev Locals (V : Type) := VarName → Option V

/-- Python dict.update called with a list of key/value pairs: each pair is
written in order, so a later pair for the same key wins. -/
def dictUpdate {V : Type} (l : Locals V) (kvs : List (VarName × V)) : Locals V :=
  kvs.foldl (fun m kv => fun k => if k = kv.1 then some kv.2 else m k) l

/-- Python dict.update called with another whole mapping: keys present in the
argument override the base mapping. -/
def dictUpdateMap {V : Type} (base upd : Locals V) : Locals V :=
  fun k => match upd k with
  | some v => some v
  | none => base k

/-- Python item assignment l[name] = v. -/
def pySet {V : Type} (l : Locals V) (name : VarName) (v : V) : Locals V :=
  fun k => if k = name then some v else l k

/-- Python del l[name]: removes the key if present, raises KeyError (none)
if the key is missing. -/
def pyDel {V : Type} (l : Locals V) (name : VarName) : Option (Locals V) :=
  match l name with
  | some _ => some (fun k => if k = name then none else l k)
  | none => none

/-- The one optional positional argument of the constructor: either a Python
list (of variable names) or some non-list object. -/
inductive PosArg where
  | pyList (names : List VarName)
  | nonList
deriving DecidableEq

/-- The guard instance after construction. vars_to_preserve is a list in
preserve-list mode (mode A is the empty list) and the Python None sentinel
(here Option.none) in keyword-only mode. -/
structure ScopeContextManager (V : Type) where
  initial_values : List (VarName × V)
  vars_to_preserve : Option (List VarName)
deriving DecidableEq

/-- The ValueError message raised for an invalid argument shape. -/
def scopeErrMsg : String :=
  "Scope context manager takes one (optional) positional argument, a list of variables to preserve"

/-- ScopeContextManager.__init__: zero positional arguments select mode A
(empty kwargs) or keyword-only mode B (non-empty kwargs); one positional
argument that is a list selects preserve-list mode C; any other shape
raises ValueError. -/
def scopeInit {V : Type} (args : List PosArg) (kwargs : List (VarName × V)) :
    Except String (ScopeContextManager V) :=
  match args with
  | [] =>
    if kwargs.isEmpty then
      .ok { initial_values := kwargs, vars_to_preserve := some [] }
    else
      .ok { initial_values := kwargs, vars_to_preserve := none }
  | [PosArg.pyList names] =>
    .ok { initial_values := kwargs, vars_to_preserve := some names }
  | _ => .error scopeErrMsg

/-- The guard together with the snapshot captured at entry. -/
structure EnteredScope (V : Type) where
  scm : ScopeContextManager V
  old_locals : Locals V

/-- ScopeContextManager.__enter__: copy the caller's locals into old_locals,
then update the live mapping with the initial values. Returns the entered
scope and the live mapping after the update. -/
def scopeEnter {V : Type} (scm : ScopeContextManager V) (l : Locals V) :
    EnteredScope V × Locals V :=
  let old_locals := l
  (⟨scm, old_locals⟩, dictUpdate l scm.initial_values)

/-- The keyword-only restore loop of __exit__: for each name given an
initial value, reset it to its old value if it existed before the scope,
otherwise del it from the live mapping (which raises KeyError, modelled as
none, when the name is also absent from the live mapping). -/
def keywordRestoreLoop {V : Type} (old : Locals V) (kvs : List (VarName × V))
    (l : Locals V) : Option (Locals V) :=
  match kvs with
  | [] => some l
  | kv :: rest =>
    match old kv.1 with
    | some v => keywordRestoreLoop old rest (pySet l kv.1 v)
    | none =>
      match pyDel l kv.1 with
      | some m => keywordRestoreLoop old rest m
      | none => none

/-- The mutation performed by ScopeContextManager.__exit__ on the live
locals l. In preserve-list mode: build the dict of present preserved names
with their current values, clear the live mapping, restore old_locals, then
re-apply the preserved dict. In keyword-only mode: run the restore loop
over the initial values. Returns none when the routine raises. -/
def scopeExitRestore {V : Type} (es : EnteredScope V) (l : Locals V) :
    Option (Locals V) :=
  match es.scm.vars_to_preserve with
  | some names =>
    let preserved := names.filterMap (fun name => (l name).map (fun v => (name, v)))
    let cleared : Locals V := fun _ => none
    some (dictUpdate (dictUpdateMap cleared es.old_locals) preserved)
  | none => keywordRestoreLoop es.old_locals es.scm.initial_values l

/-- ScopeContextManager.__exit__: takes the exception information (none when
the block ended normally), never reads it, performs the restore, and falls
off the end returning Python None, whose truthiness (the suppress flag,
second component) is false. -/
def scopeExit {V E : Type} (es : EnteredScope V) (excInfo : Option E)
    (l : Locals V) : Option (Locals V × Bool) :=
  (scopeExitRestore es l).map (fun r => (r, false))

/-- Outcome of running the scoped block starting from the live locals after
entry: it ends normally or raises, in both cases leaving the locals in some
state. -/
inductive BlockOutcome (V E : Type) where
  | norm (l : Locals V)
  | raised (e : E) (l : Locals V)

/-- Result of a whole with-statement: completed normally, propagated the
block's exception after cleanup, or the exit routine itself raised. -/
inductive RunResult (V E : Type) where
  | completed (final : Locals V)
  | propagated (e : E) (final : Locals V)
  | exitRaised

/-- Python's with-statement protocol around the guard (host-language
semantics): call __enter__, run the block, and call __exit__ on every path
out of the block, passing the exception information when the block raised;
a falsy __exit__ return lets the exception propagate. -/
def runWith {V E : Type} (scm : ScopeContextManager V)
    (block : Locals V → BlockOutcome V E) (pre : Locals V) : RunResult V E :=
  let entered := scopeEnter scm pre
  match block entered.2 with
  | .norm l =>
    match scopeExit (E := E) entered.1 none l with
    | some (r, _) => .completed r
    | none => .exitRaised
  | .raised e l =>
    match scopeExit entered.1 (some e) l with
    | some (r, suppress) => if suppress then .completed r else .propagated e r
    | none => .exitRaised

/-- One with-statement whose block ends normally, as a transformer of the
caller's locals: enter, apply the block's effect to the live mapping, exit.
none when exit raises. -/
def runScope {V : Type} (scm : ScopeContextManager V)
    (block : Locals V → Locals V) (pre : Locals V) : Option (Locals V) :=
  let entered := scopeEnter scm pre
  scopeExitRestore entered.1 (block entered.2)

/-- Two non-overlapping with-statements in sequence over the same calling
context: the second guard enters on the locals the first guard's exit left
behind. -/
def runScopeSeq {V : Type} (g1 g2 : ScopeContextManager V)
    (b1 b2 : Locals V → Locals V) (pre : Locals V) : Option (Locals V) :=
  let entered1 := scopeEnter g1 pre
  match scopeExitRestore entered1.1 (b1 entered1.2) with
  | none => none
  | some mid =>
    let entered2 := scopeEnter g2 mid
    scopeExitRestore entered2.1 (b2 entered2.2)

/-! ### Pointwise lemmas about the dictionary operations -/

lemma dictUpdate_nil {V : Type} (l : Locals V) : dictUpdate l [] = l := rfl

lemma dictUpdate_cons {V : Type} (l : Locals V) (kv : VarName × V)
    (kvs : List (VarName × V)) :
    dictUpdate l (kv :: kvs)
      = dictUpdate (fun k => if k = kv.1 then some kv.2 else l k) kvs := rfl

lemma dictUpdate_apply_of_not_mem {V : Type} (l : Locals V)
    (kvs : List (VarName × V)) (k : VarName) (h : k ∉ kvs.map Prod.fst) :
    dictUpdate l kvs k = l k := by
  induction kvs generalizing l with
  | nil => rfl
  | cons kv rest ih =>
    simp only [List.map_cons, List.mem_cons, not_or] at h
    rw [dictUpdate_cons, ih _ h.2]
    simp [h.1]

lemma dictUpdate_apply_of_mem_nodup {V : Type} (l : Locals V)
    (kvs : List (VarName × V)) (k : VarName) (v : V)
    (hnd : (kvs.map Prod.fst).Nodup) (hm : (k, v) ∈ kvs) :
    dictUpdate l kvs k = some v := by
  induction kvs generalizing l with
  | nil => cases hm
  | cons kv rest ih =>
    simp only [List.map_cons, List.nodup_cons] at hnd
    rcases List.mem_cons.mp hm with heq | hrest
    · subst heq
      rw [dictUpdate_cons, dictUpdate_apply_of_not_mem _ _ _ hnd.1]
      simp
    · exact ih _ hnd.2 hrest

lemma dictUpdateMap_cleared_apply {V : Type} (old : Locals V) (k : VarName) :
    dictUpdateMap (fun _ => none) old k = old k := by
  cases h : old k <;> simp [dictUpdateMap, h]

/-- The dict comprehension of the preserve-list branch, applied on top of any
base mapping, gives the current value of every listed name that is present
and keeps the base for everything else. -/
lemma dictUpdate_preserved_apply {V : Type} (l : Locals V)
    (names : List VarName) (base : Locals V) (k : VarName) :
    dictUpdate base (names.filterMap (fun n => (l n).map (fun v => (n, v)))) k
      = if k ∈ names then
          (match l k with
           | some v => some v
           | none => base k)
        else base k := by
  induction names generalizing base with
  | nil => simp [dictUpdate]
  | cons n ns ih =>
    rw [List.filterMap_cons]
    cases hn : l n with
    | none =>
      simp only [Option.map_none']
      rw [ih]
      by_cases hk : k = n
      · subst hk
        by_cases hmem : k ∈ ns <;> simp [hmem, hn]
      · simp [List.mem_cons, hk]
    | some v =>
      simp only [Option.map_some']
      rw [dictUpdate_cons, ih]
      by_cases hk : k = n
      · subst hk
        by_cases hmem : k ∈ ns <;> simp [hmem, hn]
      · simp [List.mem_cons, hk]

/-- Preserve-list exit never raises and its result is determined pointwise:
listed names keep their current (post-block) value when present and fall
back to the snapshot when absent; unlisted names get the snapshot. -/
lemma scopeExitRestore_listMode_apply {V : Type} (iv : List (VarName × V))
    (names : List VarName) (old l : Locals V) :
    ∃ r, scopeExitRestore ⟨⟨iv, some names⟩, old⟩ l = some r ∧
      ∀ k, r k = if k ∈ names then
          (match l k with
           | some v => some v
           | none => old k)
        else old k := by
  refine ⟨_, rfl, fun k => ?_⟩
  rw [dictUpdate_preserved_apply]
  by_cases hmem : k ∈ names
  · cases hl : l k <;> simp [hmem, hl, dictUpdateMap_cleared_apply]
  · simp [hmem, dictUpdateMap_cleared_apply]

/-- The keyword restore loop succeeds whenever every name that was absent
from the snapshot is present in the live mapping, and then resets exactly
the looped-over names to their snapshot state. -/
lemma keywordRestoreLoop_apply {V : Type} (old : Locals V)
    (kvs : List (VarName × V)) (l : Locals V)
    (hnd : (kvs.map Prod.fst).Nodup)
    (hsafe : ∀ kv ∈ kvs, old kv.1 = none → (l kv.1).isSome = true) :
    ∃ r, keywordRestoreLoop old kvs l = some r ∧
      ∀ k, r k = if k ∈ kvs.map Prod.fst then old k else l k := by
  induction kvs generalizing l with
  | nil => exact ⟨l, rfl, fun k => by simp⟩
  | cons kv rest ih =>
    simp only [List.map_cons, List.nodup_cons] at hnd
    have hstep : ∃ l1, keywordRestoreLoop old (kv :: rest) l
        = keywordRestoreLoop old rest l1 ∧
        ∀ k, l1 k = if k = kv.1 then old k else l k := by
      cases hold : old kv.1 with
      | some v =>
        refine ⟨pySet l kv.1 v, by simp [keywordRestoreLoop, hold], fun k => ?_⟩
        by_cases hk : k = kv.1 <;> simp [pySet, hk, hold]
      | none =>
        have hs := hsafe kv (List.mem_cons_self kv rest) hold
        cases hl : l kv.1 with
        | none => rw [hl] at hs; cases hs
        | some w =>
          refine ⟨fun k => if k = kv.1 then none else l k,
            by simp [keywordRestoreLoop, hold, pyDel, hl], fun k => ?_⟩
          by_cases hk : k = kv.1 <;> simp [hk, hold]
    obtain ⟨l1, hrun, hl1⟩ := hstep
    have hsafe1 : ∀ kv' ∈ rest, old kv'.1 = none → (l1 kv'.1).isSome = true := by
      intro kv' hmem hold'
      have hne : kv'.1 ≠ kv.1 := by
        intro hcontra
        exact hnd.1 (hcontra ▸ List.mem_map_of_mem Prod.fst hmem)
      rw [hl1 kv'.1, if_neg hne]
      exact hsafe kv' (List.mem_cons_of_mem kv hmem) hold'
    obtain ⟨r, hr, hrk⟩ := ih l1 hnd.2 hsafe1
    refine ⟨r, by rw [hrun, hr], fun k => ?_⟩
    rw [hrk k, hl1 k]
    by_cases hmem : k ∈ rest.map Prod.fst
    · simp [hmem]
    · by_cases hk : k = kv.1 <;> simp [hmem, hk]

/-! ### Computation lemmas for the constructor -/

lemma scopeInit_no_args_no_kwargs {V : Type} :
    scopeInit [] ([] : List (VarName × V)) = .ok ⟨[], some []⟩ := rfl

lemma scopeInit_no_args_kwargs {V : Type} (kwargs : List (VarName × V))
    (h : kwargs ≠ []) : scopeInit [] kwargs = .ok ⟨kwargs, none⟩ := by
  cases kwargs with
  | nil => exact absurd rfl h
  | cons kv rest => rfl

lemma scopeInit_one_list {V : Type} (names : List VarName)
    (kwargs : List (VarName × V)) :
    scopeInit [PosArg.pyList names] kwargs = .ok ⟨kwargs, some names⟩ := rfl

/-! ### Claim theorems -/

/-- Claim C2: in full-reset mode A (constructed with no positional and no
keyword arguments), for every pre-scope locals mapping and every post-block
locals mapping, entry leaves the live mapping unchanged and after exit every
name has exactly its pre-scope existence and value: additions are removed
and changes restored (full round-trip). -/
theorem C2_full_reset_round_trip {V : Type} (scm : ScopeContextManager V)
    (pre post : Locals V)
    (hinit : scopeInit [] ([] : List (VarName × V)) = .ok scm) :
    (∀ k, (scopeEnter scm pre).2 k = pre k) ∧
    ∃ r, scopeExitRestore (scopeEnter scm pre).1 post = some r ∧
      ∀ k, r k = pre k := by
  rw [scopeInit_no_args_no_kwargs] at hinit
  injection hinit with hinit
  subst hinit
  refine ⟨fun k => rfl, ?_⟩
  obtain ⟨r, hr, hrk⟩ := scopeExitRestore_listMode_apply [] [] pre post
  exact ⟨r, hr, fun k => by simpa using hrk k⟩

/-- Claim C2 witness: concrete scenario 1 shape, pre-scope a maps to 7 and
b maps to 9, arbitrary post-block state, mode A restores the pre state. -/
theorem C2_full_reset_round_trip_witness :
    (∀ k, (scopeEnter (⟨[], some []⟩ : ScopeContextManager Nat)
        (fun k => if k = "a" then some 7 else if k = "b" then some 9 else none)).2 k
      = (fun k => if k = "a" then some 7 else if k = "b" then some 9 else none :
          Locals Nat) k) ∧
    ∃ r, scopeExitRestore
        (scopeEnter (⟨[], some []⟩ : ScopeContextManager Nat)
          (fun k => if k = "a" then some 7 else if k = "b" then some 9 else none)).1
        (fun k => if k = "a" then some 3 else if k = "b" then some 5 else
          if k = "c" then some 8 else none) = some r ∧
      ∀ k, r k = (fun k => if k = "a" then some 7 else if k = "b" then some 9
        else none : Locals Nat) k :=
  C2_full_reset_round_trip _ _ _ rfl

/-- Claim C1 counterexample: pre-scope the name a maps to 7; the guard is
constructed with the preserve list containing a and no keyword arguments;
the block deletes a, so the post-block locals are empty and a is absent at
the moment the block ends. The claim says a is then simply absent from the
result, but exit restores a to its pre-scope value 7. -/
theorem C1_preserve_absent_counterexample :
    scopeInit [PosArg.pyList ["a"]] ([] : List (VarName × Nat))
        = .ok ⟨[], some ["a"]⟩ ∧
    (runScope (⟨[], some ["a"]⟩ : ScopeContextManager Nat)
        (fun _ => (fun _ => none))
        (fun k => if k = "a" then some 7 else none)).map (fun r => r "a")
      = some (some 7) := by
  exact ⟨rfl, rfl⟩

/-- Claim C1 (amended): in preserve-list mode C, for every pre-scope and
post-block locals mapping, every listed name present at the moment the
block ends keeps its post-block value (even if it also existed pre-scope),
every name not in the list has exactly its pre-scope existence and value,
and a listed name absent at block end reverts to its pre-scope state (so it
is absent from the result only when it was also absent pre-scope), with no
error. -/
theorem C1_preserve_list_exit {V : Type} (names : List VarName)
    (kwargs : List (VarName × V)) (scm : ScopeContextManager V)
    (pre post : Locals V)
    (hinit : scopeInit [PosArg.pyList names] kwargs = .ok scm) :
    ∃ r, scopeExitRestore (scopeEnter scm pre).1 post = some r ∧
      (∀ k ∈ names, ∀ v, post k = some v → r k = some v) ∧
      (∀ k, k ∉ names → r k = pre k) ∧
      (∀ k ∈ names, post k = none → r k = pre k) := by
  rw [scopeInit_one_list] at hinit
  injection hinit with hinit
  subst hinit
  obtain ⟨r, hr, hrk⟩ := scopeExitRestore_listMode_apply kwargs names pre post
  refine ⟨r, hr, fun k hk v hv => ?_, fun k hk => ?_, fun k hk hv => ?_⟩
  · rw [hrk k, if_pos hk, hv]
  · rw [hrk k, if_neg hk]
  · rw [hrk k, if_pos hk, hv]

/-- Claim C1 witness: concrete scenario 4, pre-scope a maps to 7 and b to 9,
guard scope with list c and b and keyword arguments a equal 3 and b equal 5,
post-block state a maps to 3, b to 5, c to 8; the preserved names b and c
keep the post-block values 5 and 8 while a reverts to 7. -/
theorem C1_preserve_list_exit_witness :
    ∃ r, scopeExitRestore
        (scopeEnter (⟨[("a", 3), ("b", 5)], some ["c", "b"]⟩ :
            ScopeContextManager Nat)
          (fun k => if k = "a" then some 7 else if k = "b" then some 9 else none)).1
        (fun k => if k = "a" then some 3 else if k = "b" then some 5 else
          if k = "c" then some 8 else none) = some r ∧
      (∀ k ∈ ["c", "b"], ∀ v,
        (fun k => if k = "a" then some 3 else if k = "b" then some 5 else
          if k = "c" then some 8 else none : Locals Nat) k = some v → r k = some v) ∧
      (∀ k, k ∉ ["c", "b"] → r k
        = (fun k => if k = "a" then some 7 else if k = "b" then some 9 else none :
            Locals Nat) k) ∧
      (∀ k ∈ ["c", "b"],
        (fun k => if k = "a" then some 3 else if k = "b" then some 5 else
          if k = "c" then some 8 else none : Locals Nat) k = none → r k
          = (fun k => if k = "a" then some 7 else if k = "b" then some 9 else none :
              Locals Nat) k) :=
  C1_preserve_list_exit ["c", "b"] [("a", 3), ("b", 5)] _ _ _ rfl

/-- Claim C3: in keyword-only mode B (no positional argument, at least one
keyword argument), immediately after entry each keyword name is bound to
its supplied value; and whenever exit completes, each keyword name equals
its pre-scope value if it existed pre-scope and is absent otherwise, while
every non-keyword name retains exactly the state the block left it in. The
completion hypothesis holds in particular whenever every keyword name
absent pre-scope is still present at block end. -/
theorem C3_keyword_only_mode {V : Type} (kwargs : List (VarName × V))
    (scm : ScopeContextManager V) (pre post : Locals V)
    (hinit : scopeInit [] kwargs = .ok scm) (hne : kwargs ≠ [])
    (hnd : (kwargs.map Prod.fst).Nodup)
    (hsafe : ∀ kv ∈ kwargs, pre kv.1 = none → (post kv.1).isSome = true) :
    (∀ kv ∈ kwargs, (scopeEnter scm pre).2 kv.1 = some kv.2) ∧
    ∃ r, scopeExitRestore (scopeEnter scm pre).1 post = some r ∧
      (∀ kv ∈ kwargs, r kv.1 = pre kv.1) ∧
      (∀ k, k ∉ kwargs.map Prod.fst → r k = post k) := by
  rw [scopeInit_no_args_kwargs kwargs hne] at hinit
  injection hinit with hinit
  subst hinit
  refine ⟨fun kv hmem => dictUpdate_apply_of_mem_nodup pre kwargs kv.1 kv.2 hnd ?_, ?_⟩
  · cases kv; exact hmem
  obtain ⟨r, hr, hrk⟩ := keywordRestoreLoop_apply pre kwargs post hnd hsafe
  refine ⟨r, hr, fun kv hmem => ?_, fun k hk => ?_⟩
  · rw [hrk kv.1, if_pos (List.mem_map_of_mem Prod.fst hmem)]
  · rw [hrk k, if_neg hk]

/-- Claim C3 witness: concrete scenario 5, pre-scope a maps to 7 and b to 9,
guard scope with keyword argument a equal 3, post-block state a maps to 3,
b to 5, c to 8; after entry a is 3, after exit a reverts to 7 while b and c
keep the post-block values. -/
theorem C3_keyword_only_mode_witness :
    [("a", (3 : Nat))] ≠ [] ∧
    (∀ kv ∈ [("a", (3 : Nat))],
      (scopeEnter (⟨[("a", 3)], none⟩ : ScopeContextManager Nat)
        (fun k => if k = "a" then some 7 else if k = "b" then some 9 else none)).2 kv.1
        = some kv.2) ∧
    ∃ r, scopeExitRestore
        (scopeEnter (⟨[("a", 3)], none⟩ : ScopeContextManager Nat)
          (fun k => if k = "a" then some 7 else if k = "b" then some 9 else none)).1
        (fun k => if k = "a" then some 3 else if k = "b" then some 5 else
          if k = "c" then some 8 else none) = some r ∧
      (∀ kv ∈ [("a", (3 : Nat))], r kv.1
        = (fun k => if k = "a" then some 7 else if k = "b" then some 9 else none :
            Locals Nat) kv.1) ∧
      (∀ k, k ∉ [("a", (3 : Nat))].map Prod.fst → r k
        = (fun k => if k = "a" then some 3 else if k = "b" then some 5 else
            if k = "c" then some 8 else none : Locals Nat) k) :=
  ⟨by decide,
    C3_keyword_only_mode [("a", 3)] _ _ _ rfl (by decide) (by decide)
      (by intro kv hmem hpre
          simp only [List.mem_singleton] at hmem
          subst hmem
          simp at hpre)⟩

/-- Claim C4 counterexample: the guard scope with keyword argument c equal 1
is entered on empty pre-scope locals (construction succeeds and selects
keyword-only mode); the block deletes the injected name c, leaving the
locals empty; exit then executes del on the missing key c and raises
KeyError (modelled as the none result), contradicting the claim that this
very case is handled without error. -/
theorem C4_exit_keyword_delete_counterexample :
    scopeInit [] [("c", (1 : Nat))] = .ok ⟨[("c", 1)], none⟩ ∧
    runScope (⟨[("c", (1 : Nat))], none⟩ : ScopeContextManager Nat)
      (fun _ => (fun _ => none)) (fun _ => none) = none := by
  exact ⟨rfl, rfl⟩

/-- Claim C4 (amended): exit never raises in preserve-list mode, whatever
the post-block locals; in keyword-only mode exit never raises provided
every keyword name that was absent pre-scope is still present at the moment
the block ends (so only deleting a keyword-injected fresh name inside the
block can make exit raise). -/
theorem C4_exit_totality {V : Type} (es : EnteredScope V) (l : Locals V) :
    (∀ names, es.scm.vars_to_preserve = some names →
      (scopeExitRestore es l).isSome = true) ∧
    (es.scm.vars_to_preserve = none →
      (es.scm.initial_values.map Prod.fst).Nodup →
      (∀ kv ∈ es.scm.initial_values,
        es.old_locals kv.1 = none → (l kv.1).isSome = true) →
      (scopeExitRestore es l).isSome = true) := by
  obtain ⟨⟨iv, vtp⟩, old⟩ := es
  constructor
  · intro names hvtp
    simp only at hvtp
    subst hvtp
    obtain ⟨r, hr, -⟩ := scopeExitRestore_listMode_apply iv names old l
    rw [hr]; rfl
  · intro hvtp hnd hsafe
    simp only at hvtp
    subst hvtp
    obtain ⟨r, hr, -⟩ := keywordRestoreLoop_apply old iv l hnd hsafe
    simp only [scopeExitRestore]
    rw [hr]; rfl

/-- Claim C4 witness: keyword-only guard with keyword argument a equal 3,
pre-scope a maps to 7, post-block a maps to 3 and b to 5; the safety
condition holds (a existed pre-scope) and exit completes. -/
theorem C4_exit_totality_witness :
    (⟨⟨[("a", (3 : Nat))], none⟩,
        fun k => if k = "a" then some 7 else none⟩ :
      EnteredScope Nat).scm.vars_to_preserve = none ∧
    (scopeExitRestore
      (⟨⟨[("a", (3 : Nat))], none⟩,
          fun k => if k = "a" then some 7 else none⟩ : EnteredScope Nat)
      (fun k => if k = "a" then some 3 else if k = "b" then some 5 else none)).isSome
      = true :=
  ⟨rfl,
    (C4_exit_totality _ _).2 rfl (by decide)
      (by intro kv hmem hpre
          simp only [List.mem_singleton] at hmem
          subst hmem
          simp at hpre)⟩

/-- Claim C5: construction succeeds exactly for the allowed argument shapes:
zero positional arguments always succeed (mode A when there are no keyword
arguments, mode B otherwise), one positional list argument succeeds as mode
C with any keyword arguments, and two or more positional arguments, or one
positional argument that is not a list, fail with the ValueError carrying
the invalid-arguments message. Construction is a pure function of its
arguments and touches no locals mapping. -/
theorem C5_construction_shapes {V : Type} (kwargs : List (VarName × V)) :
    (kwargs = [] → scopeInit [] kwargs = .ok ⟨kwargs, some []⟩) ∧
    (kwargs ≠ [] → scopeInit [] kwargs = .ok ⟨kwargs, none⟩) ∧
    (∀ names, scopeInit [PosArg.pyList names] kwargs = .ok ⟨kwargs, some names⟩) ∧
    (∀ args, 2 ≤ args.length → scopeInit args kwargs = .error scopeErrMsg) ∧
    (scopeInit [PosArg.nonList] kwargs = .error scopeErrMsg) := by
  refine ⟨?_, scopeInit_no_args_kwargs kwargs,
    fun names => scopeInit_one_list names kwargs, ?_, rfl⟩
  · rintro rfl; rfl
  · intro args hlen
    match args with
    | a :: b :: rest => cases a <;> rfl

/-- Claim C5 witness: the invalid construction from the spec with two
positional arguments fails with the invalid-arguments error, and the other
shapes behave as stated at concrete arguments. -/
theorem C5_construction_shapes_witness :
    ([] : List (VarName × Nat)) = [] ∧
    scopeInit [PosArg.pyList ["a"], PosArg.pyList ["extra"]]
      ([] : List (VarName × Nat)) = .error scopeErrMsg ∧
    scopeInit [PosArg.nonList] ([] : List (VarName × Nat)) = .error scopeErrMsg ∧
    scopeInit [] ([] : List (VarName × Nat)) = .ok ⟨[], some []⟩ :=
  ⟨rfl,
    (C5_construction_shapes ([] : List (VarName × Nat))).2.2.2.1 _ (by decide),
    (C5_construction_shapes ([] : List (VarName × Nat))).2.2.2.2,
    (C5_construction_shapes ([] : List (VarName × Nat))).1 rfl⟩

/-- Claim C6: entry copies before it injects: old_locals holds the
pre-scope value or absence of every name, including names that also appear
among the initial values, and after entry the live mapping equals the
pre-scope mapping overridden by the initial values (each initial-value name
bound to its supplied value, every other name unchanged). -/
theorem C6_enter_copy_before_inject {V : Type} (scm : ScopeContextManager V)
    (pre : Locals V) (hnd : (scm.initial_values.map Prod.fst).Nodup) :
    (∀ k, (scopeEnter scm pre).1.old_locals k = pre k) ∧
    (∀ kv ∈ scm.initial_values, (scopeEnter scm pre).2 kv.1 = some kv.2) ∧
    (∀ k, k ∉ scm.initial_values.map Prod.fst → (scopeEnter scm pre).2 k = pre k) := by
  refine ⟨fun k => rfl, fun kv hmem => ?_, fun k hk => ?_⟩
  · refine dictUpdate_apply_of_mem_nodup pre _ kv.1 kv.2 hnd ?_
    cases kv; exact hmem
  · exact dictUpdate_apply_of_not_mem pre _ k hk

/-- Claim C6 witness: guard with keyword arguments a equal 3 and b equal 5
entered on pre-scope where a maps to 7: the snapshot keeps a at 7 even
though a is injected, and the live mapping binds a to 3 and b to 5. -/
theorem C6_enter_copy_before_inject_witness :
    (∀ k, (scopeEnter (⟨[("a", (3 : Nat)), ("b", 5)], some ["c"]⟩ :
          ScopeContextManager Nat)
        (fun k => if k = "a" then some 7 else none)).1.old_locals k
      = (fun k => if k = "a" then some 7 else none : Locals Nat) k) ∧
    (∀ kv ∈ [("a", (3 : Nat)), ("b", 5)],
      (scopeEnter (⟨[("a", (3 : Nat)), ("b", 5)], some ["c"]⟩ :
          ScopeContextManager Nat)
        (fun k => if k = "a" then some 7 else none)).2 kv.1 = some kv.2) ∧
    (∀ k, k ∉ [("a", (3 : Nat)), ("b", 5)].map Prod.fst →
      (scopeEnter (⟨[("a", (3 : Nat)), ("b", 5)], some ["c"]⟩ :
          ScopeContextManager Nat)
        (fun k => if k = "a" then some 7 else none)).2 k
      = (fun k => if k = "a" then some 7 else none : Locals Nat) k) :=
  C6_enter_copy_before_inject _ _ (by decide)

/-- Claim C7 counterexample: the guard scope with keyword argument c equal 1
is entered on empty pre-scope locals; the block deletes the injected name c
and then raises the error token 0. The claim says exit still runs its full
restore and the block's error propagates unaltered, but __exit__ hits del
on the missing key c, raises KeyError partway through the restore, and that
KeyError supersedes the block's error: the run ends exitRaised, not
propagated. -/
theorem C7_exit_raises_counterexample :
    scopeInit [] [("c", (1 : Nat))] = .ok ⟨[("c", 1)], none⟩ ∧
    runWith (E := Nat) (⟨[("c", (1 : Nat))], none⟩ : ScopeContextManager Nat)
      (fun _ => BlockOutcome.raised 0 (fun _ => none)) (fun _ => none)
      = RunResult.exitRaised := by
  exact ⟨rfl, rfl⟩

/-- Claim C7 (amended): when the block raises and the exit restore
completes, the with-statement runs the full restore, the restored locals
are exactly those obtained had the block ended normally at the point of the
raise, and the error is neither suppressed nor altered: exit ignores the
exception information, returns the falsy Python None, and the same error
propagates to the caller. (When exit itself raises -- only possible in the
keyword-delete corner of C4 -- the restore is cut short and the KeyError
supersedes the block's error.) -/
theorem C7_error_propagation {V E : Type} (scm : ScopeContextManager V)
    (block : Locals V → BlockOutcome V E) (pre : Locals V) (e : E)
    (lraise r : Locals V)
    (hraise : block (scopeEnter scm pre).2 = .raised e lraise)
    (hexit : scopeExitRestore (scopeEnter scm pre).1 lraise = some r) :
    runWith scm block pre = .propagated e r ∧
    runWith (E := E) scm (fun _ => BlockOutcome.norm lraise) pre = .completed r := by
  constructor
  · simp [runWith, scopeExit, hraise, hexit]
  · simp [runWith, scopeExit, hexit]

/-- Claim C7 witness: mode A guard on pre-scope where a maps to 7; the block
sets a to 3 and then raises the error token 0; the with-statement propagates
that error and the final locals are the restored pre-scope ones, the same
result the normally-ending block produces. -/
theorem C7_error_propagation_witness :
    (fun _ => BlockOutcome.raised 0 (fun k => if k = "a" then some 3 else none) :
        Locals Nat → BlockOutcome Nat Nat)
      ((scopeEnter (⟨[], some []⟩ : ScopeContextManager Nat)
        (fun k => if k = "a" then some 7 else none)).2)
      = BlockOutcome.raised 0 (fun k => if k = "a" then some 3 else none) ∧
    runWith (⟨[], some []⟩ : ScopeContextManager Nat)
      (fun _ => BlockOutcome.raised 0 (fun k => if k = "a" then some 3 else none))
      (fun k => if k = "a" then some 7 else none)
      = .propagated 0
          (dictUpdateMap (fun _ => none) (fun k => if k = "a" then some 7 else none)) ∧
    runWith (E := Nat) (⟨[], some []⟩ : ScopeContextManager Nat)
      (fun _ => BlockOutcome.norm (fun k => if k = "a" then some 3 else none))
      (fun k => if k = "a" then some 7 else none)
      = .completed
          (dictUpdateMap (fun _ => none) (fun k => if k = "a" then some 7 else none)) :=
  ⟨rfl,
    (C7_error_propagation (⟨[], some []⟩ : ScopeContextManager Nat)
      (fun _ => BlockOutcome.raised 0 (fun k => if k = "a" then some 3 else none))
      (fun k => if k = "a" then some 7 else none) 0
      (fun k => if k = "a" then some 3 else none)
      (dictUpdateMap (fun _ => none) (fun k => if k = "a" then some 7 else none))
      rfl rfl).1,
    (C7_error_propagation (⟨[], some []⟩ : ScopeContextManager Nat)
      (fun _ => BlockOutcome.raised 0 (fun k => if k = "a" then some 3 else none))
      (fun k => if k = "a" then some 7 else none) 0
      (fun k => if k = "a" then some 3 else none)
      (dictUpdateMap (fun _ => none) (fun k => if k = "a" then some 7 else none))
      rfl rfl).2⟩

/-- Claim C8: two non-overlapping scoped blocks run in sequence over the
same calling context compose: the final locals equal the result of applying
the first guard's entry, block effect and exit to the initial mapping, and
then the second guard's entry, block effect and exit to the mapping that
produced — each guard's effect is fully determined by the mapping at its
own entry and exit. -/
theorem C8_sequential_composition {V : Type} (g1 g2 : ScopeContextManager V)
    (b1 b2 : Locals V → Locals V) (pre : Locals V) :
    runScopeSeq g1 g2 b1 b2 pre
      = (runScope g1 b1 pre).bind (fun mid => runScope g2 b2 mid) := by
  simp only [runScopeSeq, runScope]
  cases h : scopeExitRestore (scopeEnter g1 pre).1 (b1 (scopeEnter g1 pre).2) <;>
    simp [h]

/-- Claim C9: the guard constructed with no positional and no keyword
arguments and the guard constructed with an empty list as its one
positional argument (and no keyword arguments) are the same guard, so they
have identical entry behavior and identical exit behavior on every
pre-scope and post-block locals mapping. -/
theorem C9_full_reset_is_empty_preserve_list {V : Type}
    (g1 g2 : ScopeContextManager V)
    (hg1 : scopeInit [] ([] : List (VarName × V)) = .ok g1)
    (hg2 : scopeInit [PosArg.pyList []] ([] : List (VarName × V)) = .ok g2)
    (pre post : Locals V) :
    g1 = g2 ∧
    scopeEnter g1 pre = scopeEnter g2 pre ∧
    scopeExitRestore (scopeEnter g1 pre).1 post
      = scopeExitRestore (scopeEnter g2 pre).1 post := by
  rw [scopeInit_no_args_no_kwargs] at hg1
  rw [scopeInit_one_list] at hg2
  injection hg1 with hg1
  injection hg2 with hg2
  subst hg1
  subst hg2
  exact ⟨rfl, rfl, rfl⟩

/-- Claim C9 witness: at concrete pre-scope a maps to 7 and post-block
b maps to 5, the two constructions yield the same guard and the same entry
and exit results. -/
theorem C9_full_reset_is_empty_preserve_list_witness :
    (⟨[], some []⟩ : ScopeContextManager Nat)
      = (⟨[], some []⟩ : ScopeContextManager Nat) ∧
    scopeEnter (⟨[], some []⟩ : ScopeContextManager Nat)
        (fun k => if k = "a" then some 7 else none)
      = scopeEnter (⟨[], some []⟩ : ScopeContextManager Nat)
        (fun k => if k = "a" then some 7 else none) ∧
    scopeExitRestore
        (scopeEnter (⟨[], some []⟩ : ScopeContextManager Nat)
          (fun k => if k = "a" then some 7 else none)).1
        (fun k => if k = "b" then some 5 else none)
      = scopeExitRestore
        (scopeEnter (⟨[], some []⟩ : ScopeContextManager Nat)
          (fun k => if k = "a" then some 7 else none)).1
        (fun k => if k = "b" then some 5 else none) :=
  C9_full_reset_is_empty_preserve_list _ _ rfl rfl _ _

/-- Claim C10: the preserve-list exit result depends only on the set of
names in the list: two preserve lists with the same members, in any order
and with any duplication, produce identical post-scope locals mappings for
every pre-scope and post-block locals mapping. -/
theorem C10_preserve_list_set_semantics {V : Type} (iv : List (VarName × V))
    (names1 names2 : List VarName) (pre post : Locals V)
    (hset : ∀ n, n ∈ names1 ↔ n ∈ names2) :
    scopeExitRestore ⟨⟨iv, some names1⟩, pre⟩ post
      = scopeExitRestore ⟨⟨iv, some names2⟩, pre⟩ post := by
  obtain ⟨r1, hr1, hk1⟩ := scopeExitRestore_listMode_apply iv names1 pre post
  obtain ⟨r2, hr2, hk2⟩ := scopeExitRestore_listMode_apply iv names2 pre post
  rw [hr1, hr2]
  congr 1
  funext k
  rw [hk1 k, hk2 k, if_congr (hset k) rfl rfl]

/-- Claim C10 witness: the duplicated, reordered list b, c, b and the list
c, b have the same members, so exit produces the same mapping at the
concrete scenario 4 state. -/
theorem C10_preserve_list_set_semantics_witness :
    (∀ n, n ∈ ["b", "c", "b"] ↔ n ∈ ["c", "b"]) ∧
    scopeExitRestore
        (⟨⟨([] : List (VarName × Nat)), some ["b", "c", "b"]⟩,
          fun k => if k = "a" then some 7 else if k = "b" then some 9 else none⟩ :
          EnteredScope Nat)
        (fun k => if k = "a" then some 3 else if k = "b" then some 5 else
          if k = "c" then some 8 else none)
      = scopeExitRestore
        (⟨⟨([] : List (VarName × Nat)), some ["c", "b"]⟩,
          fun k => if k = "a" then some 7 else if k = "b" then some 9 else none⟩ :
          EnteredScope Nat)
        (fun k => if k = "a" then some 3 else if k = "b" then some 5 else
          if k = "c" then some 8 else none) := by
  have hset : ∀ n : VarName, n ∈ ["b", "c", "b"] ↔ n ∈ ["c", "b"] := by
    intro n
    simp only [List.mem_cons, List.not_mem_nil, or_false]
    tauto
  exact ⟨hset, C10_preserve_list_set_semantics _ _ _ _ _ hset⟩

end Localscope
